import Mathlib

/-
Verification of the ResumeAI-Helper repository (src/utils.py, src/app.py)
against its natural-language specification.

Python strings are modelled as `List Char` (wrapped in `String` at the
outermost interfaces).  The model is ASCII-faithful: `str.lower` is modelled
by `Char.toLower` and the regex class `\s` by the ASCII whitespace
characters, which agree with Python on all ASCII inputs.  External
collaborators (the Ollama / Hugging Face model call and `json.loads`) are
modelled as explicit input parameters, since their results enter the
functions as opaque data.
-/

/-- Python whitespace test: the ASCII characters matched by the regex class
`\s` and by `str.split()` / `str.strip()` (space, tab, line feed, carriage
return, vertical tab, form feed). -/
def pyIsWs (c : Char) : Bool :=
  c = ' ' || c = '\t' || c = '\n' || c = '\r' || c = '\x0b' || c = '\x0c'

/-- Test for the regex class `[a-zA-Z]`: `Char.isUpper` is exactly `[A-Z]`
and `Char.isLower` is exactly `[a-z]`. -/
def isAsciiLetter (c : Char) : Bool :=
  c.isUpper || c.isLower

/-- Embedding of `re.sub(r'[^a-zA-Z\s]', ' ', text)` from
`preprocess_text_for_visualization` (src/utils.py): every character that is
not an ASCII letter and not whitespace is replaced by a single space. -/
def subNonAlphaToSpace (l : List Char) : List Char :=
  l.map fun c => if isAsciiLetter c || pyIsWs c then c else ' '

/-- Embedding of `re.sub(r'\s+', ' ', text)`: every maximal run of
whitespace characters is replaced by one space character. -/
def collapseWs : List Char → List Char
  | [] => []
  | [c] => if pyIsWs c then [' '] else [c]
  | c :: d :: rest =>
    if pyIsWs c && pyIsWs d then collapseWs (d :: rest)
    else (if pyIsWs c then ' ' else c) :: collapseWs (d :: rest)

/-- Removal of trailing whitespace, the right half of Python's
`str.strip()`. -/
def dropTrailingWs (l : List Char) : List Char :=
  (l.reverse.dropWhile pyIsWs).reverse

/-- Embedding of Python's `str.strip()` (with no argument): leading and
trailing whitespace is removed. -/
def pyStripChars (l : List Char) : List Char :=
  dropTrailingWs (l.dropWhile pyIsWs)

/-- Embedding of `preprocess_text_for_visualization` (src/utils.py lines
661-683): on empty input return `""`; otherwise lowercase, replace every
character that is not an ASCII letter and not whitespace by a space
(`re.sub(r'[^a-zA-Z\s]', ' ', text)`), collapse whitespace runs to one
space and strip (`re.sub(r'\s+', ' ', text).strip()`). -/
def preprocess_text_for_visualization (text : String) : String :=
  if text = "" then ""
  else
    let lowered := text.data.map Char.toLower
    let subbed := subNonAlphaToSpace lowered
    String.mk (pyStripChars (collapseWs subbed))

/-- Normalizer behaving as claim C4 literally states it (the spec's §4.1
contract): lowercase, replace every character that is *not a letter, digit,
whitespace, hyphen, or period* with a single space, collapse whitespace
runs, trim.  Used only to compare the claimed behavior with the source's
actual behavior. -/
def normalize_claimC4 (text : String) : String :=
  let lowered := text.data.map Char.toLower
  let subbed := lowered.map fun c =>
    if isAsciiLetter c || c.isDigit || pyIsWs c || c = '-' || c = '.' then c else ' '
  String.mk (pyStripChars (collapseWs subbed))

/-- Normalizer as claim C4 must be amended: lowercase, replace every
character that is not a *letter* (digits, hyphens and periods included)
and not whitespace with a single space, collapse whitespace runs to one
space, trim; the empty string maps to the empty string. -/
def normalize_amendedC4 (text : String) : String :=
  if text = "" then ""
  else
    let subbed := text.data.map fun c =>
      let c2 := c.toLower
      if c2.isAlpha || pyIsWs c2 then c2 else ' '
    String.mk (pyStripChars (collapseWs subbed))

example : preprocess_text_for_visualization "Hello,  World! 123" = "hello world" := by decide

example : preprocess_text_for_visualization "a1.b-c" = "a b c" := by decide

example : normalize_claimC4 "a1.b-c" = "a1.b-c" := by decide

/-- Accumulator-based splitter: `splitWsAux l acc` splits `l` on whitespace
runs, `acc` holding the (reversed) currently scanned word. -/
def splitWsAux : List Char → List Char → List (List Char)
  | [], acc => if acc = [] then [] else [acc.reverse]
  | c :: cs, acc =>
    if pyIsWs c then
      if acc = [] then splitWsAux cs [] else acc.reverse :: splitWsAux cs []
    else splitWsAux cs (c :: acc)

/-- Embedding of Python's `str.split()` (with no argument): split on runs
of whitespace, discarding empty pieces. -/
def pyWords (l : List Char) : List (List Char) :=
  splitWsAux l []

/-- Embedding of `' '.join(words)`. -/
def joinWords (ws : List (List Char)) : List Char :=
  List.intercalate [' '] ws

/-- Embedding of the code-fence cleanup in `generate_cover_letter`
(src/utils.py): `if cover_letter.startswith('```') and
cover_letter.endswith('```'): cover_letter = cover_letter[3:-3].strip()`.
Python's slice `[3:-3]` is `drop 3` followed by `take (length - 6)`. -/
def stripCodeFence (l : List Char) : List Char :=
  let fence : List Char := "\x60\x60\x60".data
  if l.take 3 = fence ∧ l.drop (l.length - 3) = fence then
    pyStripChars ((l.drop 3).take (l.length - 6))
  else l

/-- Embedding of the success-path post-processing of `generate_cover_letter`
(src/utils.py lines 630-641).  Both API branches deliver the model response
already stripped (`response['message']['content'].strip()` resp.
`hf_chat_completion`'s `response.strip()`); the code-fence cleanup follows,
then the length guard: if the word count exceeds 300 the letter is replaced
by its first 250 words joined with single spaces, with `"..."` appended. -/
def generate_cover_letter_post (response : List Char) : List Char :=
  let cover_letter := stripCodeFence (pyStripChars response)
  let words := pyWords cover_letter
  if words.length > 300 then joinWords (words.take 250) ++ "...".data
  else cover_letter

example : generate_cover_letter_post "  Dear Hiring Manager, I am writing.  ".data
    = "Dear Hiring Manager, I am writing.".data := by decide

example : generate_cover_letter_post "\x60\x60\x60 Dear \x60\x60\x60".data = "Dear".data := by decide

/-- Model of the Python/JSON values that flow through `analyze_ats_score`:
integers, strings, lists and string-keyed dictionaries (in insertion
order, as Python dicts preserve it). -/
inductive PVal where
  | int : Int → PVal
  | str : String → PVal
  | list : List PVal → PVal
  | dict : List (String × PVal) → PVal
deriving Repr

/-- Comma separation used by Python's repr of containers. -/
def sepCommas (parts : List String) : String :=
  String.intercalate ", " parts

mutual

/-- Python `repr` of a modelled value (as it appears inside containers). -/
def pyRepr : PVal → String
  | .int n => toString n
  | .str s => "\x27" ++ s ++ "\x27"
  | .list xs => "[" ++ sepCommas (pyReprList xs) ++ "]"
  | .dict kvs => "\x7b" ++ sepCommas (pyReprKVs kvs) ++ "\x7d"

/-- Python `repr` of each element of a list. -/
def pyReprList : List PVal → List String
  | [] => []
  | v :: vs => pyRepr v :: pyReprList vs

/-- Python `repr` of each `key: value` pair of a dict. -/
def pyReprKVs : List (String × PVal) → List String
  | [] => []
  | (k, v) :: kvs => ("\x27" ++ k ++ "\x27: " ++ pyRepr v) :: pyReprKVs kvs

end

/-- Python `str()` of a modelled value: a string is itself; containers and
integers render via `repr`. -/
def pyStrOf : PVal → String
  | .str s => s
  | v => pyRepr v

/-- Dictionary read, `d[k]` / `k in d`: the first entry with the given key
(Python dicts have unique keys, so the first entry is the entry). -/
def dictLookup (d : List (String × PVal)) (k : String) : Option PVal :=
  (d.find? (fun p => p.1 = k)).map (fun p => p.2)

/-- Dictionary write `d[k] = v`: overwriting keeps the key's position,
otherwise the pair is appended at the end (Python insertion order). -/
def dictSet (d : List (String × PVal)) (k : String) (v : PVal) : List (String × PVal) :=
  if (dictLookup d k).isSome then
    d.map (fun p => if p.1 = k then (k, v) else p)
  else d ++ [(k, v)]

/-- The eleven `required_keys` of `analyze_ats_score` (src/utils.py). -/
def requiredKeys : List String :=
  ["ats_score", "keyword_match_score", "formatting_score", "content_score",
   "missing_keywords", "formatting_issues", "content_issues",
   "ats_optimization_tips", "keyword_suggestions", "structure_recommendations",
   "summary"]

/-- The `numeric_keys` of `analyze_ats_score`. -/
def numericKeys : List String :=
  ["ats_score", "keyword_match_score", "formatting_score", "content_score"]

/-- The `list_keys` of `analyze_ats_score`. -/
def listKeys : List String :=
  ["missing_keywords", "formatting_issues", "content_issues",
   "ats_optimization_tips", "keyword_suggestions", "structure_recommendations"]

/-- Per-key default of the backfill `elif` chain in `analyze_ats_score`
("Validate and ensure all required keys exist"). -/
def atsKeyDefault (k : String) : PVal :=
  if k = "ats_score" then .int 75
  else if k = "keyword_match_score" then .int 70
  else if k = "formatting_score" then .int 80
  else if k = "content_score" then .int 75
  else if k = "missing_keywords" then .list [.str "keyword1", .str "keyword2", .str "keyword3"]
  else if k = "formatting_issues" then .list [.str "Review formatting manually"]
  else if k = "content_issues" then .list [.str "Review content manually"]
  else if k = "ats_optimization_tips" then
    .list [.str "Review the AI response manually for detailed feedback."]
  else if k = "keyword_suggestions" then .list [.str "keyword1", .str "keyword2", .str "keyword3"]
  else if k = "structure_recommendations" then .list [.str "Review structure manually"]
  else .str "Analysis completed but some details were not provided."

/-- Embedding of Python `int(s)` on a string argument, as used by the
`try: int(...) except: 75` coercion: surrounding whitespace is stripped, an
optional sign is allowed, then a nonempty digit run (digit-group
underscores of Python 3 literals are not modelled; they never widen the
failure set used by the claims). `none` models `ValueError`. -/
def pyIntOfString (s : String) : Option Int :=
  let t := pyStripChars s.data
  let core : List Char → Option Nat := fun ds =>
    if ds = [] ∨ ¬ ds.all Char.isDigit then none
    else some (ds.foldl (fun n c => 10 * n + (c.toNat - 48)) 0)
  match t with
  | '-' :: ds => (core ds).map (fun n => -(n : Int))
  | '+' :: ds => (core ds).map (fun n => (n : Int))
  | ds => (core ds).map (fun n => (n : Int))

/-- One iteration of the backfill loop of `analyze_ats_score`: `if key not
in ats_result: ats_result[key] = <default>`. -/
def backfillStep (r : List (String × PVal)) (k : String) : List (String × PVal) :=
  if (dictLookup r k).isSome then r else dictSet r k (atsKeyDefault k)

/-- Backfill loop of `analyze_ats_score`: `for key in required_keys: if key
not in ats_result: ats_result[key] = <default>`. -/
def backfillKeys (d : List (String × PVal)) : List (String × PVal) :=
  requiredKeys.foldl backfillStep d

/-- One iteration of the numeric coercion loop of `analyze_ats_score`: a
string value is converted with `int(...)`, and replaced by `75` when the
conversion raises; non-string values are left unchanged. -/
def numericStep (r : List (String × PVal)) (k : String) : List (String × PVal) :=
  match dictLookup r k with
  | some (.str s) =>
    dictSet r k (match pyIntOfString s with
      | some n => .int n
      | none => .int 75)
  | _ => r

/-- Numeric coercion loop of `analyze_ats_score` over the four score
keys. -/
def coerceNumericKeys (d : List (String × PVal)) : List (String × PVal) :=
  numericKeys.foldl numericStep d

/-- One iteration of the list coercion loop of `analyze_ats_score`: a
non-list value is wrapped as `[str(value)]`. -/
def listStep (r : List (String × PVal)) (k : String) : List (String × PVal) :=
  match dictLookup r k with
  | some (.list _) => r
  | some v => dictSet r k (.list [.str (pyStrOf v)])
  | none => r

/-- List coercion loop of `analyze_ats_score` over the six list keys. -/
def coerceListKeys (d : List (String × PVal)) : List (String × PVal) :=
  listKeys.foldl listStep d

/-- The fallback dict built when the model response cannot be parsed as
JSON (`except json.JSONDecodeError` branch of `analyze_ats_score`). -/
def jsonFallbackResult : List (String × PVal) :=
  [("ats_score", .int 75),
   ("keyword_match_score", .int 70),
   ("formatting_score", .int 80),
   ("content_score", .int 75),
   ("missing_keywords", .list [.str "keyword1", .str "keyword2", .str "keyword3",
     .str "keyword4", .str "keyword5"]),
   ("formatting_issues", .list [.str "Review formatting manually"]),
   ("content_issues", .list [.str "Review content manually"]),
   ("ats_optimization_tips", .list [.str "Review the AI response manually for detailed feedback."]),
   ("keyword_suggestions", .list [.str "keyword1", .str "keyword2", .str "keyword3"]),
   ("structure_recommendations", .list [.str "Review structure manually"]),
   ("summary", .str "Analysis completed but response format was unexpected. Please review the AI response manually for detailed feedback.")]

/-- The all-zero fallback report returned by the outer `except Exception as
e` branch of `analyze_ats_score` (src/utils.py lines 939-954); `e` is the
exception's message. -/
def atsErrorResult (e : String) : List (String × PVal) :=
  [("ats_score", .int 0),
   ("keyword_match_score", .int 0),
   ("formatting_score", .int 0),
   ("content_score", .int 0),
   ("missing_keywords", .list [.str "analysis_failed"]),
   ("formatting_issues", .list [.str "analysis_failed"]),
   ("content_issues", .list [.str "analysis_failed"]),
   ("ats_optimization_tips", .list [.str "Please check that Ollama is running and the model is installed."]),
   ("keyword_suggestions", .list [.str "analysis_failed"]),
   ("structure_recommendations", .list [.str "analysis_failed"]),
   ("summary", .str ("ATS analysis failed: " ++ e ++ ". Please check that Ollama is running and the model is installed."))]

/-- Embedding of `analyze_ats_score` (src/utils.py lines 774-954).  The
resume and job-description texts only enter the prompt sent to the external
model; the report is computed from the model's response.  The external
part is the parameter `llm`:
`Except.error e` models an exception raised anywhere in the pipeline
(unavailable client, failed API call, Ollama error), caught by the outer
`except Exception`; `Except.ok none` models a response whose JSON
extraction fails with `json.JSONDecodeError`; `Except.ok (some d)` models a
response whose extracted JSON parses to the dict `d`.  The parsed dict is
then validated: missing keys are backfilled, string scores are coerced to
integers, non-list values of list keys are wrapped. -/
def analyze_ats_score (resume_text jd_text : String)
    (llm : Except String (Option (List (String × PVal)))) : List (String × PVal) :=
  match resume_text, jd_text, llm with
  | _, _, .error e => atsErrorResult e
  | _, _, .ok parsed =>
    let ats_result := match parsed with
      | some d => d
      | none => jsonFallbackResult
    coerceListKeys (coerceNumericKeys (backfillKeys ats_result))

example :
    dictLookup (analyze_ats_score "r" "j" (.ok (some [("ats_score", .str "88")]))) "ats_score"
      = some (.int 88) := rfl

example :
    dictLookup (analyze_ats_score "r" "j" (.ok (some [("missing_keywords", .int 3)])))
      "missing_keywords" = some (.list [.str "3"]) := rfl

/-- One entry of the analysis history built by `save_analysis_to_history`
(src/app.py lines 54-75); the timestamp comes from the wall clock, so it
is an input of the model. -/
structure AnalysisEntry where
  id : Nat
  timestamp : String
  resume_text : String
  job_text : String
  analysis_results : Option (List (String × PVal))
  model_used : String
  resume_words : Nat
  job_words : Nat
  score : PVal

/-- The caller-supplied arguments of one `save_analysis_to_history` call. -/
structure SaveInput where
  timestamp : String
  resume_text : String
  job_text : String
  analysis_results : Option (List (String × PVal))
  model_used : String

/-- Embedding of `save_analysis_to_history` (src/app.py lines 54-75): an
entry is built (with `id = len(history) + 1`, word counts via
`len(text.split())`, and `score = analysis_results.get('score', 0)`),
appended to the history, and the history is cut to its last ten entries
(`history[-10:]`) whenever it exceeds ten.  The returned pair is the new
history and the new `current_analysis_id`. -/
def save_analysis_to_history (history : List AnalysisEntry) (inp : SaveInput) :
    List AnalysisEntry × Nat :=
  let entry : AnalysisEntry :=
    { id := history.length + 1
      timestamp := inp.timestamp
      resume_text := inp.resume_text
      job_text := inp.job_text
      analysis_results := inp.analysis_results
      model_used := inp.model_used
      resume_words := if inp.resume_text = "" then 0 else (pyWords inp.resume_text.data).length
      job_words := if inp.job_text = "" then 0 else (pyWords inp.job_text.data).length
      score := match inp.analysis_results with
        | none => .int 0
        | some d => (dictLookup d "score").getD (.int 0) }
  let h := history ++ [entry]
  (if h.length > 10 then h.drop (h.length - 10) else h, entry.id)

/-- History obtained by running a sequence of saves against the initial
empty `st.session_state.analysis_history`. -/
def historyAfter (saves : List SaveInput) : List AnalysisEntry :=
  saves.foldl (fun h inp => (save_analysis_to_history h inp).1) []

/-- Rounding to one decimal place, as the spec's aggregator prescribes
(round half up). -/
def roundTo1 (q : ℚ) : ℚ :=
  (⌊10 * q + 1 / 2⌋ : ℚ) / 10

/-- Modelled from the spec: the deterministic score aggregator of §4.6 is
part of the spec's ATS engine but is not present under src/ (the code under
src/ delegates the whole report to an external language model), so its
weighted-sum formula is taken from the spec text: `overall =
100*similarity*0.30 + matchPercentage*0.30 + formattingScore*0.20 +
contentScore*0.20`, rounded to one decimal place.  Scores are exact
rationals. -/
def aggregate_overall (similarity matchPercentage formattingScore contentScore : ℚ) : ℚ :=
  roundTo1 (100 * similarity * (30 / 100) + matchPercentage * (30 / 100)
    + formattingScore * (20 / 100) + contentScore * (20 / 100))

example : aggregate_overall 1 100 100 100 = 100 := by norm_num [aggregate_overall, roundTo1]

example : aggregate_overall 0 0 0 0 = 0 := by norm_num [aggregate_overall, roundTo1]

example : aggregate_overall (1 / 2) 50 80 60 = 58 := by norm_num [aggregate_overall, roundTo1]

/-- Modelled from the spec: the standard English stop-word list the
similarity scorer's vectorization excludes (§4.2).  The backend's full
list is longer; only membership of concrete test tokens matters to the
stated properties. -/
def stopWords : List String :=
  ["a", "an", "and", "are", "as", "at", "be", "but", "by", "for", "from",
   "has", "he", "in", "is", "it", "its", "of", "on", "or", "such", "that",
   "the", "their", "then", "there", "these", "they", "this", "to", "was",
   "were", "will", "with"]

/-- Tokens of a normalized document: whitespace-separated words with the
stop words removed. -/
def contentTokens (s : String) : List String :=
  ((pyWords s.data).map (fun w => String.mk w)).filter (fun w => w ∉ stopWords)

/-- Unigram terms of a token list (a term is a list of one or two words). -/
def unigramsOf (ws : List String) : List (List String) :=
  ws.map (fun w => [w])

/-- Bigram terms of a token list. -/
def bigramsOf : List String → List (List String)
  | [] => []
  | [_] => []
  | a :: b :: rest => [a, b] :: bigramsOf (b :: rest)

/-- All terms (unigrams and bigrams) extracted from one document. -/
def docTerms (s : String) : List (List String) :=
  unigramsOf (contentTokens s) ++ bigramsOf (contentTokens s)

/-- Modelled from the spec: the shared vocabulary of the two-document
corpus, limited to unigrams and bigrams and capped at 1000 terms (§4.2).
The cap keeps the first 1000 distinct terms in order of appearance; the
backend ranks by weight, but the cap's selection rule does not affect the
properties claimed of the scorer. -/
def corpusVocab (r j : String) : List (List String) :=
  ((docTerms r ++ docTerms j).dedup).take 1000

/-- Number of occurrences of a term in a document (adjacent runs of tokens
equal to the term). -/
def termCount (t : List String) (s : String) : ℕ :=
  let ws := contentTokens s
  (List.range ws.length).countP (fun i => (ws.drop i).take t.length = t)

/-- Document frequency of a term over the two-document corpus. -/
def docFreq (r j : String) (t : List String) : ℕ :=
  (if 0 < termCount t r then 1 else 0) + (if 0 < termCount t j then 1 else 0)

/-- Modelled from the spec: the TF-IDF weight of a term for one document
of the corpus, `tf * (1 + log((1 + N) / (1 + df)))` with `N = 2`
documents — nonnegative, and at least 1 whenever the term occurs. -/
noncomputable def tfidfWeight (r j d : String) (t : List String) : ℝ :=
  (termCount t d : ℝ) * (1 + Real.log (3 / (1 + (docFreq r j t : ℝ))))

/-- Inner product of the TF-IDF vectors of documents `d1` and `d2` over
the shared vocabulary of the corpus `(r, j)`. -/
noncomputable def tfidfDot (r j d1 d2 : String) : ℝ :=
  ∑ i ∈ Finset.range (corpusVocab r j).length,
    tfidfWeight r j d1 ((corpusVocab r j).getD i []) *
      tfidfWeight r j d2 ((corpusVocab r j).getD i [])

/-- Test for a document with no extractable terms: its term-count vector
over the corpus vocabulary is identically zero. -/
def zeroVector (r j d : String) : Bool :=
  (corpusVocab r j).all (fun t => termCount t d = 0)

/-- Modelled from the spec: the similarity scorer of §4.2 is part of the
spec's ATS engine but is not present under src/ (the code under src/
delegates all scoring to an external language model).  Following the spec
text: build TF-IDF vectors of the two normalized documents over a shared
unigram/bigram vocabulary capped at 1000 terms with stop words excluded,
and return their cosine similarity; if either document is empty or
produces zero extractable terms, or the vectorization backend is
unavailable (`backendAvailable = false`), return the neutral fallback
`0.5` instead of raising. -/
noncomputable def similarity (backendAvailable : Bool) (resumeN jdN : String) : ℝ :=
  if backendAvailable = false then 1 / 2
  else if resumeN = "" ∨ jdN = "" then 1 / 2
  else if zeroVector resumeN jdN resumeN ∨ zeroVector resumeN jdN jdN then 1 / 2
  else tfidfDot resumeN jdN resumeN jdN /
    (Real.sqrt (tfidfDot resumeN jdN resumeN resumeN) *
      Real.sqrt (tfidfDot resumeN jdN jdN jdN))

example : zeroVector "python" "java" "python" = false := by decide

example : contentTokens "the python developer" = ["python", "developer"] := by decide

/-- Document frequencies never exceed the corpus size 2. -/
theorem docFreq_le_two (r j : String) (t : List String) : docFreq r j t ≤ 2 := by
  unfold docFreq
  split <;> split <;> simp

/-- The IDF factor is at least 1. -/
theorem one_le_idf (r j : String) (t : List String) :
    (1 : ℝ) ≤ 1 + Real.log (3 / (1 + (docFreq r j t : ℝ))) := by
  have hpos : (0 : ℝ) < 1 + (docFreq r j t : ℝ) := by positivity
  have h2 : (docFreq r j t : ℝ) ≤ 2 := by
    exact_mod_cast docFreq_le_two r j t
  have hge : (1 : ℝ) ≤ 3 / (1 + (docFreq r j t : ℝ)) := by
    rw [le_div_iff₀ hpos]
    linarith
  have := Real.log_nonneg hge
  linarith

/-- TF-IDF weights are nonnegative. -/
theorem tfidfWeight_nonneg (r j d : String) (t : List String) :
    0 ≤ tfidfWeight r j d t := by
  unfold tfidfWeight
  exact mul_nonneg (Nat.cast_nonneg _) (by linarith [one_le_idf r j t])

/-- A term that occurs in a document has TF-IDF weight at least 1. -/
theorem one_le_tfidfWeight (r j d : String) (t : List String)
    (h : 0 < termCount t d) : 1 ≤ tfidfWeight r j d t := by
  unfold tfidfWeight
  have h1 : (1 : ℝ) ≤ (termCount t d : ℝ) := by exact_mod_cast h
  have h2 := one_le_idf r j t
  nlinarith

/-- A term that does not occur in a document has TF-IDF weight 0. -/
theorem tfidfWeight_eq_zero (r j d : String) (t : List String)
    (h : termCount t d = 0) : tfidfWeight r j d t = 0 := by
  unfold tfidfWeight
  rw [h]
  simp

/-- TF-IDF inner products of nonnegative vectors are nonnegative. -/
theorem tfidfDot_nonneg (r j d1 d2 : String) : 0 ≤ tfidfDot r j d1 d2 := by
  unfold tfidfDot
  exact Finset.sum_nonneg fun i _ =>
    mul_nonneg (tfidfWeight_nonneg r j d1 _) (tfidfWeight_nonneg r j d2 _)

/-- A document whose term-count vector is not identically zero has a
strictly positive squared norm. -/
theorem tfidfDot_self_pos (r j d : String) (h : zeroVector r j d = false) :
    0 < tfidfDot r j d d := by
  unfold zeroVector at h
  have hex : ∃ t ∈ corpusVocab r j, ¬ termCount t d = 0 := by
    by_contra hall
    push_neg at hall
    have : (corpusVocab r j).all (fun t => termCount t d = 0) = true := by
      rw [List.all_eq_true]
      intro t ht
      simpa using hall t ht
    rw [this] at h
    cases h
  obtain ⟨t, ht, hcount⟩ := hex
  obtain ⟨i, hi, hget⟩ := List.mem_iff_getElem.mp ht
  unfold tfidfDot
  apply Finset.sum_pos'
  · intro k _
    exact mul_nonneg (tfidfWeight_nonneg r j d _) (tfidfWeight_nonneg r j d _)
  · refine ⟨i, Finset.mem_range.mpr hi, ?_⟩
    have hgd : (corpusVocab r j).getD i [] = t := by
      rw [List.getD_eq_getElem _ _ hi, hget]
    rw [hgd]
    have h1 := one_le_tfidfWeight r j d t (Nat.pos_of_ne_zero hcount)
    nlinarith

/-- Cauchy-Schwarz for the TF-IDF vectors. -/
theorem tfidfDot_le_sqrt_mul_sqrt (r j d1 d2 : String) :
    tfidfDot r j d1 d2 ≤
      Real.sqrt (tfidfDot r j d1 d1) * Real.sqrt (tfidfDot r j d2 d2) := by
  unfold tfidfDot
  have h := Real.sum_mul_le_sqrt_mul_sqrt (Finset.range (corpusVocab r j).length)
    (fun i => tfidfWeight r j d1 ((corpusVocab r j).getD i []))
    (fun i => tfidfWeight r j d2 ((corpusVocab r j).getD i []))
  simpa [sq] using h

/-- Claim C7 (spec-modelled): the similarity scorer always returns a value
in [0,1]; it returns the neutral fallback 0.5 whenever the vectorization
backend is unavailable, and whenever either document is empty or produces
zero extractable terms (in particular on two empty documents); identical
non-empty documents with extractable terms score exactly 1; documents
whose corpus terms never occur in both score exactly 0.  Totality of the
Lean function models "never raises". -/
theorem similarity_spec_C7 :
    (∀ b r j, 0 ≤ similarity b r j ∧ similarity b r j ≤ 1) ∧
    (∀ r j, similarity false r j = 1 / 2) ∧
    (∀ r j, r = "" ∨ j = "" → similarity true r j = 1 / 2) ∧
    (similarity true "" "" = 1 / 2) ∧
    (∀ x, x ≠ "" → zeroVector x x x = false → similarity true x x = 1) ∧
    (∀ r j, r ≠ "" → j ≠ "" → zeroVector r j r = false → zeroVector r j j = false →
      (∀ t ∈ corpusVocab r j, termCount t r = 0 ∨ termCount t j = 0) →
      similarity true r j = 0) := by
  refine ⟨?_, ?_, ?_, ?_, ?_, ?_⟩
  · intro b r j
    unfold similarity
    split
    · norm_num
    · split
      · norm_num
      · split
        · norm_num
        · rename_i hb hempty hzero
          rw [not_or] at hzero
          have hzr : zeroVector r j r = false := by
            simpa using hzero.1
          have hzj : zeroVector r j j = false := by
            simpa using hzero.2
          have hA := tfidfDot_self_pos r j r hzr
          have hB := tfidfDot_self_pos r j j hzj
          have hden : 0 < Real.sqrt (tfidfDot r j r r) * Real.sqrt (tfidfDot r j j j) :=
            mul_pos (Real.sqrt_pos.mpr hA) (Real.sqrt_pos.mpr hB)
          constructor
          · exact div_nonneg (tfidfDot_nonneg r j r j) (le_of_lt hden)
          · rw [div_le_one hden]
            exact tfidfDot_le_sqrt_mul_sqrt r j r j
  · intro r j
    simp [similarity]
  · intro r j h
    rw [similarity, if_neg (by simp), if_pos h]
  · simp [similarity]
  · intro x hx hz
    rw [similarity, if_neg (by simp), if_neg (by simp [hx]), if_neg (by simp [hz])]
    have hA := tfidfDot_self_pos x x x hz
    rw [Real.mul_self_sqrt (le_of_lt hA)]
    exact div_self (ne_of_gt hA)
  · intro r j hr hj hzr hzj hdisj
    rw [similarity, if_neg (by simp), if_neg (by simp [hr, hj]),
      if_neg (by simp [hzr, hzj])]
    have hD : tfidfDot r j r j = 0 := by
      unfold tfidfDot
      apply Finset.sum_eq_zero
      intro i hi
      have hi2 := Finset.mem_range.mp hi
      have hmem : (corpusVocab r j).getD i [] ∈ corpusVocab r j := by
        rw [List.getD_eq_getElem _ _ hi2]
        exact List.getElem_mem hi2
      rcases hdisj _ hmem with h0 | h0
      · rw [tfidfWeight_eq_zero r j r _ h0, zero_mul]
      · rw [tfidfWeight_eq_zero r j j _ h0, mul_zero]
    rw [hD, zero_div]

/-- Witness for C7: concrete identical documents score 1, concrete
disjoint documents score 0. -/
theorem similarity_spec_C7_witness :
    similarity true "python" "python" = 1 ∧ similarity true "python" "java" = 0 := by
  constructor
  · exact similarity_spec_C7.2.2.2.2.1 "python" (by decide) (by decide)
  · exact similarity_spec_C7.2.2.2.2.2 "python" "java" (by decide) (by decide)
      (by decide) (by decide) (by decide)

/-- Reading a dict with one entry in front. -/
theorem dictLookup_cons (a : String × PVal) (d : List (String × PVal)) (k : String) :
    dictLookup (a :: d) k = if a.1 = k then some a.2 else dictLookup d k := by
  by_cases h : a.1 = k
  · simp [dictLookup, List.find?_cons_of_pos, h]
  · simp [dictLookup, List.find?_cons_of_neg, h]

/-- Overwriting inside a dict by position-preserving map: the looked-up
value changes exactly at the written key, and only when that key is
present. -/
theorem dictLookup_setMap (d : List (String × PVal)) (k k' : String) (v : PVal) :
    dictLookup (d.map (fun p => if p.1 = k then (k, v) else p)) k'
      = if k' = k then (dictLookup d k).map (fun _ => v) else dictLookup d k' := by
  induction d with
  | nil => by_cases h : k' = k <;> simp [dictLookup, h]
  | cons a d ih =>
    obtain ⟨ka, va⟩ := a
    simp only [List.map_cons]
    by_cases hak : ka = k
    · subst hak
      by_cases hk : k' = ka
      · subst hk
        simp [dictLookup_cons]
      · simp [dictLookup_cons, ih, hk, Ne.symm hk]
    · by_cases hk : k' = ka
      · subst hk
        simp [dictLookup_cons, hak]
      · simp [dictLookup_cons, ih, hak, Ne.symm hk]

/-- Reading a dict after a write: the written key maps to the new value,
every other key is untouched. -/
theorem dictLookup_dictSet (d : List (String × PVal)) (k k' : String) (v : PVal) :
    dictLookup (dictSet d k v) k' = if k' = k then some v else dictLookup d k' := by
  unfold dictSet
  by_cases hp : (dictLookup d k).isSome
  · rw [if_pos hp, dictLookup_setMap]
    by_cases hk : k' = k
    · subst hk
      rw [if_pos rfl, if_pos rfl]
      obtain ⟨w, hw⟩ := Option.isSome_iff_exists.mp hp
      rw [hw]
      rfl
    · rw [if_neg hk, if_neg hk]
  · rw [if_neg hp]
    have hnone : d.find? (fun p => decide (p.1 = k)) = none := by
      rcases hfind : d.find? (fun p => decide (p.1 = k)) with _ | p
      · exact hfind
      · exact absurd (by simp [dictLookup, hfind]) hp
    by_cases hk : k' = k
    · subst hk
      simp [dictLookup, List.find?_append, hnone]
    · simp [dictLookup, List.find?_append, hk, Ne.symm hk]

/-- A per-key loop body that leaves other keys untouched does not create
keys outside the processed list. -/
theorem dictLookup_foldl_of_not_mem
    (step : List (String × PVal) → String → List (String × PVal))
    (hstep : ∀ r a k, k ≠ a → dictLookup (step r a) k = dictLookup r k)
    (ks : List String) (d : List (String × PVal)) (k : String) (hk : k ∉ ks) :
    dictLookup (ks.foldl step d) k = dictLookup d k := by
  induction ks generalizing d with
  | nil => rfl
  | cons a ks ih =>
    rw [List.foldl_cons, ih (step d a) (fun h => hk (List.mem_cons_of_mem a h))]
    exact hstep d a k (fun h => hk (h ▸ List.mem_cons_self a ks))

/-- A per-key value-shape invariant preserved by every loop iteration is
preserved by the whole fold. -/
theorem pred_foldl_preserved
    (step : List (String × PVal) → String → List (String × PVal))
    (P : Option PVal → Bool)
    (hstep : ∀ r a k, P (dictLookup r k) = true → P (dictLookup (step r a) k) = true)
    (ks : List String) (d : List (String × PVal)) (k : String)
    (h : P (dictLookup d k) = true) :
    P (dictLookup (ks.foldl step d) k) = true := by
  induction ks generalizing d with
  | nil => exact h
  | cons a ks ih => exact ih _ (hstep d a k h)

/-- The backfill iteration leaves other keys untouched. -/
theorem backfillStep_ne (r : List (String × PVal)) (a k : String) (h : k ≠ a) :
    dictLookup (backfillStep r a) k = dictLookup r k := by
  unfold backfillStep
  split
  · rfl
  · rw [dictLookup_dictSet, if_neg h]

/-- The numeric-coercion iteration leaves other keys untouched. -/
theorem numericStep_ne (r : List (String × PVal)) (a k : String) (h : k ≠ a) :
    dictLookup (numericStep r a) k = dictLookup r k := by
  unfold numericStep
  split
  · rw [dictLookup_dictSet, if_neg h]
  · rfl

/-- The list-coercion iteration leaves other keys untouched. -/
theorem listStep_ne (r : List (String × PVal)) (a k : String) (h : k ≠ a) :
    dictLookup (listStep r a) k = dictLookup r k := by
  unfold listStep
  split
  · rfl
  · rw [dictLookup_dictSet, if_neg h]
  · rfl

/-- The backfill iteration never removes a key. -/
theorem backfillStep_isSome (r : List (String × PVal)) (a k : String)
    (h : (dictLookup r k).isSome = true) :
    (dictLookup (backfillStep r a) k).isSome = true := by
  by_cases hk : k = a
  · subst hk
    unfold backfillStep
    rw [if_pos h]
    exact h
  · rw [backfillStep_ne r a k hk]
    exact h

/-- The numeric-coercion iteration never removes a key. -/
theorem numericStep_isSome (r : List (String × PVal)) (a k : String)
    (h : (dictLookup r k).isSome = true) :
    (dictLookup (numericStep r a) k).isSome = true := by
  by_cases hk : k = a
  · subst hk
    unfold numericStep
    split
    · rw [dictLookup_dictSet, if_pos rfl]
      rfl
    · exact h
  · rw [numericStep_ne r a k hk]
    exact h

/-- The list-coercion iteration never removes a key. -/
theorem listStep_isSome (r : List (String × PVal)) (a k : String)
    (h : (dictLookup r k).isSome = true) :
    (dictLookup (listStep r a) k).isSome = true := by
  by_cases hk : k = a
  · subst hk
    unfold listStep
    split
    · exact h
    · rw [dictLookup_dictSet, if_pos rfl]
      rfl
    · exact h
  · rw [listStep_ne r a k hk]
    exact h

/-- Keys of the processed list are present after the backfill fold. -/
theorem isSome_backfill_foldl (ks : List String) (d : List (String × PVal))
    (k : String) (hk : k ∈ ks) :
    (dictLookup (ks.foldl backfillStep d) k).isSome = true := by
  induction ks generalizing d with
  | nil => cases hk
  | cons a ks ih =>
    rw [List.foldl_cons]
    by_cases hka : k ∈ ks
    · exact ih _ hka
    · have hke : k = a := by
        rcases List.mem_cons.mp hk with h | h
        · exact h
        · exact absurd h hka
      subst hke
      apply pred_foldl_preserved backfillStep (fun o => o.isSome) backfillStep_isSome ks _ k
      unfold backfillStep
      split
      · assumption
      · rw [dictLookup_dictSet, if_pos rfl]
        rfl

/-- Value-shape test of claim C9 for score keys: the key is present and
its value is not a string. -/
def valNotStr : Option PVal → Bool
  | some (.str _) => false
  | some _ => true
  | none => false

/-- Value-shape test of claim C9 for list keys: the key is present and its
value is a list. -/
def valIsList : Option PVal → Bool
  | some (.list _) => true
  | _ => false

/-- The numeric-coercion iteration never leaves a string behind. -/
theorem numericStep_notStr (r : List (String × PVal)) (a k : String)
    (h : valNotStr (dictLookup r k) = true) :
    valNotStr (dictLookup (numericStep r a) k) = true := by
  by_cases hk : k = a
  · subst hk
    unfold numericStep
    split
    · rw [dictLookup_dictSet, if_pos rfl]
      cases pyIntOfString _ <;> rfl
    · exact h
  · rw [numericStep_ne r a k hk]
    exact h

/-- The list-coercion iteration never introduces a string value. -/
theorem listStep_notStr (r : List (String × PVal)) (a k : String)
    (h : valNotStr (dictLookup r k) = true) :
    valNotStr (dictLookup (listStep r a) k) = true := by
  by_cases hk : k = a
  · subst hk
    unfold listStep
    split
    · exact h
    · rw [dictLookup_dictSet, if_pos rfl]
      rfl
    · exact h
  · rw [listStep_ne r a k hk]
    exact h

/-- The numeric-coercion iteration preserves list values. -/
theorem numericStep_isList (r : List (String × PVal)) (a k : String)
    (h : valIsList (dictLookup r k) = true) :
    valIsList (dictLookup (numericStep r a) k) = true := by
  by_cases hk : k = a
  · subst hk
    unfold numericStep
    split
    · rename_i s heq
      rw [heq] at h
      simp [valIsList] at h
    · exact h
  · rw [numericStep_ne r a k hk]
    exact h

/-- The list-coercion iteration preserves list values. -/
theorem listStep_isList (r : List (String × PVal)) (a k : String)
    (h : valIsList (dictLookup r k) = true) :
    valIsList (dictLookup (listStep r a) k) = true := by
  by_cases hk : k = a
  · subst hk
    unfold listStep
    split
    · exact h
    · rw [dictLookup_dictSet, if_pos rfl]
      rfl
    · exact h
  · rw [listStep_ne r a k hk]
    exact h

/-- After the numeric-coercion fold, every processed key that was present
holds a non-string value. -/
theorem notStr_numeric_foldl (ks : List String) (d : List (String × PVal))
    (k : String) (hk : k ∈ ks) (hs : (dictLookup d k).isSome = true) :
    valNotStr (dictLookup (ks.foldl numericStep d) k) = true := by
  induction ks generalizing d with
  | nil => cases hk
  | cons a ks ih =>
    rw [List.foldl_cons]
    by_cases hka : k ∈ ks
    · exact ih _ hka (numericStep_isSome d a k hs)
    · have hke : k = a := by
        rcases List.mem_cons.mp hk with h | h
        · exact h
        · exact absurd h hka
      subst hke
      apply pred_foldl_preserved numericStep valNotStr numericStep_notStr ks _ k
      rcases hval : dictLookup d k with _ | v
      · rw [hval] at hs
        cases hs
      · unfold numericStep
        rw [hval]
        cases v with
        | int n =>
          rw [hval]
          rfl
        | str s =>
          rw [dictLookup_dictSet, if_pos rfl]
          cases pyIntOfString s <;> rfl
        | list xs =>
          rw [hval]
          rfl
        | dict kvs =>
          rw [hval]
          rfl

/-- After the list-coercion fold, every processed key that was present
holds a list value. -/
theorem isList_list_foldl (ks : List String) (d : List (String × PVal))
    (k : String) (hk : k ∈ ks) (hs : (dictLookup d k).isSome = true) :
    valIsList (dictLookup (ks.foldl listStep d) k) = true := by
  induction ks generalizing d with
  | nil => cases hk
  | cons a ks ih =>
    rw [List.foldl_cons]
    by_cases hka : k ∈ ks
    · exact ih _ hka (listStep_isSome d a k hs)
    · have hke : k = a := by
        rcases List.mem_cons.mp hk with h | h
        · exact h
        · exact absurd h hka
      subst hke
      apply pred_foldl_preserved listStep valIsList listStep_isList ks _ k
      rcases hval : dictLookup d k with _ | v
      · rw [hval] at hs
        cases hs
      · unfold listStep
        rw [hval]
        cases v with
        | int n =>
          rw [dictLookup_dictSet, if_pos rfl]
          rfl
        | str s =>
          rw [dictLookup_dictSet, if_pos rfl]
          rfl
        | list xs =>
          rw [hval]
          rfl
        | dict kvs =>
          rw [dictLookup_dictSet, if_pos rfl]
          rfl

/-- Every numeric key is a required key. -/
theorem numericKeys_subset_requiredKeys : ∀ k ∈ numericKeys, k ∈ requiredKeys := by
  decide

/-- Every list key is a required key. -/
theorem listKeys_subset_requiredKeys : ∀ k ∈ listKeys, k ∈ requiredKeys := by
  decide

/-- Claim C2: when an exception is raised anywhere inside
`analyze_ats_score`, it is caught and an all-zero report is returned whose
summary interpolates the exception message into a human-readable failure
description. -/
theorem analyze_ats_score_C2_error_report (resume jd e : String) :
    dictLookup (analyze_ats_score resume jd (.error e)) "ats_score" = some (.int 0) ∧
    dictLookup (analyze_ats_score resume jd (.error e)) "keyword_match_score" = some (.int 0) ∧
    dictLookup (analyze_ats_score resume jd (.error e)) "formatting_score" = some (.int 0) ∧
    dictLookup (analyze_ats_score resume jd (.error e)) "content_score" = some (.int 0) ∧
    dictLookup (analyze_ats_score resume jd (.error e)) "summary" =
      some (.str ("ATS analysis failed: " ++ e
        ++ ". Please check that Ollama is running and the model is installed.")) :=
  ⟨rfl, rfl, rfl, rfl, rfl⟩

/-- Claim C1 counterexample: with identical resume and job-description
texts, two invocations of `analyze_ats_score` whose sampled model
responses differ produce different reports, so the report is not a
function of the two input texts alone. -/
theorem analyze_ats_score_C1_counterexample :
    analyze_ats_score "resume" "jd" (.ok (some [("ats_score", .int 10)]))
      ≠ analyze_ats_score "resume" "jd" (.ok (some [("ats_score", .int 20)])) := by
  intro h
  have h1 : (some (PVal.int 10) : Option PVal) = some (PVal.int 20) := by
    calc
      (some (PVal.int 10) : Option PVal)
          = dictLookup (analyze_ats_score "resume" "jd"
              (.ok (some [("ats_score", .int 10)]))) "ats_score" := rfl
      _ = dictLookup (analyze_ats_score "resume" "jd"
              (.ok (some [("ats_score", .int 20)]))) "ats_score" := by rw [h]
      _ = some (PVal.int 20) := rfl
  injection h1 with h2
  injection h2 with h3
  exact absurd h3 (by norm_num)

/-- Claim C1 amended: the report produced by `analyze_ats_score` is a
function of the model-call outcome alone; two invocations that obtain the
same outcome return equal reports, whatever the resume and
job-description texts are. -/
theorem analyze_ats_score_C1_amended (r1 j1 r2 j2 : String)
    (llm : Except String (Option (List (String × PVal)))) :
    analyze_ats_score r1 j1 llm = analyze_ats_score r2 j2 llm := by
  cases llm <;> rfl

/-- Claim C3: on the successful parse path, the JSON-parse-fallback path
and the exception path alike, the report of `analyze_ats_score` carries
all eleven required keys. -/
theorem analyze_ats_score_C3_all_keys (resume jd : String)
    (llm : Except String (Option (List (String × PVal)))) :
    requiredKeys.all
      (fun k => (dictLookup (analyze_ats_score resume jd llm) k).isSome) = true := by
  rw [List.all_eq_true]
  intro k hk
  cases llm with
  | error e =>
    have hmem : k ∈ requiredKeys := hk
    clear hk
    revert hmem
    rw [requiredKeys]
    intro hmem
    rcases hmem with _ | ⟨_, _ | ⟨_, _ | ⟨_, _ | ⟨_, _ | ⟨_, _ | ⟨_, _ | ⟨_, _ |
      ⟨_, _ | ⟨_, _ | ⟨_, _ | ⟨_, h⟩⟩⟩⟩⟩⟩⟩⟩⟩⟩⟩ <;> first
      | rfl
      | cases h
  | ok parsed =>
    show (dictLookup (coerceListKeys (coerceNumericKeys (backfillKeys _)) ) k).isSome = true
    apply pred_foldl_preserved listStep (fun o => o.isSome) listStep_isSome
    apply pred_foldl_preserved numericStep (fun o => o.isSome) numericStep_isSome
    exact isSome_backfill_foldl requiredKeys _ k hk

/-- Claim C9: on the non-exception path, the four score keys of the
report never hold string values (strings are converted to integers or
replaced by 75), and the six list keys always hold list values (non-lists
are wrapped as one-element string lists). -/
theorem analyze_ats_score_C9_shapes (resume jd : String)
    (parsed : Option (List (String × PVal))) :
    numericKeys.all
      (fun k => valNotStr (dictLookup (analyze_ats_score resume jd (.ok parsed)) k)) = true ∧
    listKeys.all
      (fun k => valIsList (dictLookup (analyze_ats_score resume jd (.ok parsed)) k)) = true := by
  constructor
  · rw [List.all_eq_true]
    intro k hk
    show valNotStr (dictLookup (coerceListKeys (coerceNumericKeys (backfillKeys _))) k) = true
    apply pred_foldl_preserved listStep valNotStr listStep_notStr
    exact notStr_numeric_foldl numericKeys _ k hk
      (isSome_backfill_foldl requiredKeys _ k (numericKeys_subset_requiredKeys k hk))
  · rw [List.all_eq_true]
    intro k hk
    show valIsList (dictLookup (coerceListKeys (coerceNumericKeys (backfillKeys _))) k) = true
    apply isList_list_foldl listKeys _ k hk
    apply pred_foldl_preserved numericStep (fun o => o.isSome) numericStep_isSome
    exact isSome_backfill_foldl requiredKeys _ k (listKeys_subset_requiredKeys k hk)

/-- Claim C6 (spec-modelled): the aggregator computes the weighted overall
score `100*similarity*0.30 + matchPercentage*0.30 + formattingScore*0.20 +
contentScore*0.20` rounded to one decimal place; perfect component scores
yield exactly 100.0 and all-zero components yield exactly 0.0. -/
theorem aggregate_overall_C6 :
    (∀ s m f c : ℚ, aggregate_overall s m f c
      = roundTo1 (100 * s * (3 / 10) + m * (3 / 10) + f * (1 / 5) + c * (1 / 5))) ∧
    aggregate_overall 1 100 100 100 = 100 ∧
    aggregate_overall 0 0 0 0 = 0 := by
  refine ⟨?_, ?_, ?_⟩
  · intro s m f c
    unfold aggregate_overall
    congr 1
    ring
  · norm_num [aggregate_overall, roundTo1]
  · norm_num [aggregate_overall, roundTo1]

/-- Entry expected in the history after the save with payload number `n`
of the C5 scenario (its id is `n` because the first ten saves see
histories of lengths 0 through 9). -/
def expectedEntryC5 (n : Nat) : AnalysisEntry :=
  { id := n
    timestamp := "t" ++ toString n
    resume_text := "resume " ++ toString n
    job_text := "jd " ++ toString n
    analysis_results := some [("score", .int (n : Int))]
    model_used := "llama3.1"
    resume_words := 2
    job_words := 2
    score := .int (n : Int) }

/-- The eleven saves of the C5 scenario, with payload numbers 1 to 11. -/
def elevenSavesC5 : List SaveInput :=
  (List.range 11).map fun i =>
    { timestamp := "t" ++ toString (i + 1)
      resume_text := "resume " ++ toString (i + 1)
      job_text := "jd " ++ toString (i + 1)
      analysis_results := some [("score", .int ((i : Int) + 1))]
      model_used := "llama3.1" }

/-- Claim C5: the history never exceeds ten entries, and after eleven
sequential saves into an initially empty history exactly the 2nd through
11th entries remain, in insertion order (FIFO eviction of the oldest). -/
theorem save_analysis_to_history_C5 :
    (∀ saves : List SaveInput, (historyAfter saves).length ≤ 10) ∧
    historyAfter elevenSavesC5 = (List.range 10).map (fun i => expectedEntryC5 (i + 2)) := by
  constructor
  · intro saves
    have hstep : ∀ (h : List AnalysisEntry) (inp : SaveInput), h.length ≤ 10 →
        ((save_analysis_to_history h inp).1).length ≤ 10 := by
      intro h inp hlen
      have key : ∀ e : AnalysisEntry,
          (if (h ++ [e]).length > 10
            then (h ++ [e]).drop ((h ++ [e]).length - 10)
            else h ++ [e]).length ≤ 10 := by
        intro e
        by_cases hc : (h ++ [e]).length > 10
        · rw [if_pos hc]
          simp only [List.length_drop]
          omega
        · rw [if_neg hc]
          omega
      exact key _
    have : ∀ (saves : List SaveInput) (h0 : List AnalysisEntry), h0.length ≤ 10 →
        (saves.foldl (fun h inp => (save_analysis_to_history h inp).1) h0).length ≤ 10 := by
      intro saves
      induction saves with
      | nil => intro h0 h; exact h
      | cons a saves ih =>
        intro h0 h
        exact ih _ (hstep h0 a h)
    exact this saves [] (by simp)
  · rfl

/-- Numeric characterization of `Char.isUpper`. -/
theorem isUpper_iff_toNat (c : Char) : c.isUpper = true ↔ 65 ≤ c.toNat ∧ c.toNat ≤ 90 := by
  simp [Char.isUpper, UInt32.le_def, BitVec.le_def, Char.toNat, UInt32.toNat]

/-- Numeric characterization of `Char.isLower`. -/
theorem isLower_iff_toNat (c : Char) : c.isLower = true ↔ 97 ≤ c.toNat ∧ c.toNat ≤ 122 := by
  simp [Char.isLower, UInt32.le_def, BitVec.le_def, Char.toNat, UInt32.toNat]

/-- Scalar value of `Char.ofNat` below the surrogate range. -/
theorem toNat_char_ofNat (m : Nat) (h : m < 55296) : (Char.ofNat m).toNat = m := by
  have hv : m.isValidChar := Or.inl h
  rw [Char.ofNat, dif_pos hv]
  simp [Char.ofNatAux, Char.toNat, UInt32.toNat]

/-- Lowercasing never yields an uppercase letter. -/
theorem toLower_not_upper (c : Char) : (Char.toLower c).isUpper = false := by
  rw [Char.toLower]
  split
  · rename_i h
    rw [Bool.eq_false_iff]
    intro hu
    rw [isUpper_iff_toNat, toNat_char_ofNat _ (by omega)] at hu
    omega
  · rename_i h
    rw [Bool.eq_false_iff]
    intro hu
    rw [isUpper_iff_toNat] at hu
    exact h ⟨hu.1, hu.2⟩

/-- Lowercasing fixes characters that are not uppercase letters. -/
theorem toLower_eq_self (c : Char) (h : ¬(65 ≤ c.toNat ∧ c.toNat ≤ 90)) :
    Char.toLower c = c := by
  rw [Char.toLower, if_neg h]

/-- Lowercasing fixes lowercase letters. -/
theorem toLower_of_isLower (c : Char) (h : c.isLower = true) : Char.toLower c = c := by
  rw [isLower_iff_toNat] at h
  exact toLower_eq_self c (by omega)

/-- Every character of the lowered-and-substituted text is a lowercase
letter or whitespace. -/
theorem mem_subNonAlphaToSpace (l : List Char) (c : Char)
    (hc : c ∈ subNonAlphaToSpace (l.map Char.toLower)) :
    c.isLower = true ∨ pyIsWs c = true := by
  unfold subNonAlphaToSpace at hc
  rw [List.mem_map] at hc
  obtain ⟨c1, hc1, hstep⟩ := hc
  rw [List.mem_map] at hc1
  obtain ⟨c0, _, hc0⟩ := hc1
  subst hc0
  by_cases hcond : (isAsciiLetter (Char.toLower c0) || pyIsWs (Char.toLower c0)) = true
  · rw [if_pos hcond] at hstep
    subst hstep
    rcases Bool.or_eq_true_iff.mp hcond with h | h
    · left
      rcases Bool.or_eq_true_iff.mp h with h2 | h2
      · rw [toLower_not_upper c0] at h2
        cases h2
      · exact h2
    · right
      exact h
  · rw [if_neg hcond] at hstep
    subst hstep
    right
    decide

/-- Every character of the collapsed text is a space or a non-whitespace
character of the input. -/
theorem mem_collapseWs (l : List Char) (c : Char) (hc : c ∈ collapseWs l) :
    c = ' ' ∨ (c ∈ l ∧ pyIsWs c = false) := by
  induction l with
  | nil => cases hc
  | cons a cs ih =>
    cases cs with
    | nil =>
      rw [collapseWs] at hc
      split at hc
      · left
        simpa using hc
      · rename_i hws
        right
        constructor
        · simpa using hc
        · have : c = a := by simpa using hc
          subst this
          simpa using hws
    | cons d rest =>
      rw [collapseWs] at hc
      split at hc
      · rcases ih hc with h | ⟨hmem, hws⟩
        · exact Or.inl h
        · exact Or.inr ⟨List.mem_cons_of_mem a hmem, hws⟩
      · rcases List.mem_cons.mp hc with h | h
        · subst h
          by_cases hwa : pyIsWs a = true
          · rw [if_pos hwa]
            exact Or.inl rfl
          · rw [if_neg hwa]
            exact Or.inr ⟨List.mem_cons_self a _, by simpa using hwa⟩
        · rcases ih h with h2 | ⟨hmem, hws⟩
          · exact Or.inl h2
          · exact Or.inr ⟨List.mem_cons_of_mem a hmem, hws⟩

/-- Collapsing does not change a list whose head is not whitespace except
by recursing into the tail. -/
theorem collapseWs_cons_of_not_ws (c : Char) (cs : List Char) (h : pyIsWs c = false) :
    collapseWs (c :: cs) = c :: collapseWs cs := by
  cases cs with
  | nil => simp [collapseWs, h]
  | cons d rest => simp [collapseWs, h]

/-- No two adjacent whitespace characters survive collapsing. -/
theorem chain'_collapseWs (l : List Char) :
    List.Chain' (fun a b => ¬(pyIsWs a = true ∧ pyIsWs b = true)) (collapseWs l) := by
  induction l with
  | nil => simp [collapseWs]
  | cons a cs ih =>
    cases cs with
    | nil =>
      rw [collapseWs]
      split <;> simp
    | cons d rest =>
      rw [collapseWs]
      split
      · exact ih
      · rename_i hnot
        by_cases hwa : pyIsWs a = true
        · have hwd : pyIsWs d = false := by
            cases h : pyIsWs d
            · rfl
            · exact absurd (by simp [hwa, h]) hnot
          rw [if_pos hwa, collapseWs_cons_of_not_ws d rest hwd]
          rw [List.chain'_cons']
          constructor
          · intro b hb
            rw [List.head?_cons, Option.mem_some_iff] at hb
            subst hb
            simp [hwd]
          · rw [← collapseWs_cons_of_not_ws d rest hwd]
            exact ih
        · rw [if_neg hwa]
          rw [List.chain'_cons']
          constructor
          · intro b _
            simp [hwa]
          · exact ih

/-- `dropWhile` preserves adjacency invariants. -/
theorem chain'_dropWhile {R : Char → Char → Prop} (p : Char → Bool) (l : List Char)
    (h : List.Chain' R l) : List.Chain' R (l.dropWhile p) := by
  induction l with
  | nil => simp
  | cons a l ih =>
    rw [List.dropWhile_cons]
    split
    · exact ih h.tail
    · exact h

/-- `dropTrailingWs` preserves adjacency invariants. -/
theorem chain'_dropTrailingWs {R : Char → Char → Prop} (l : List Char)
    (h : List.Chain' R l) : List.Chain' R (dropTrailingWs l) := by
  unfold dropTrailingWs
  rw [List.chain'_reverse]
  apply chain'_dropWhile
  exact List.chain'_reverse.mpr h

/-- `dropTrailingWs` keeps a prefix of its input. -/
theorem dropTrailingWs_prefixOf (l : List Char) : dropTrailingWs l <+: l := by
  unfold dropTrailingWs
  have h := List.dropWhile_suffix (l := l.reverse) pyIsWs
  have h2 := List.reverse_prefix.mpr h
  rwa [List.reverse_reverse] at h2

/-- Stripping keeps only characters of the input. -/
theorem mem_pyStripChars (l : List Char) (c : Char) (hc : c ∈ pyStripChars l) : c ∈ l := by
  unfold pyStripChars at hc
  have h1 := (dropTrailingWs_prefixOf (l.dropWhile pyIsWs)).subset hc
  exact (List.dropWhile_sublist pyIsWs).subset h1

/-- The head of a dropWhile result falsifies the predicate. -/
theorem head?_dropWhile_false (p : Char → Bool) (l : List Char) (c : Char)
    (hc : (l.dropWhile p).head? = some c) : p c = false := by
  have h := List.head?_dropWhile_not p l
  rw [hc] at h
  exact h

/-- The head of a stripped list is not whitespace. -/
theorem head?_pyStripChars_not_ws (l : List Char) (c : Char)
    (hc : (pyStripChars l).head? = some c) : pyIsWs c = false := by
  unfold pyStripChars at hc
  rcases hd : dropTrailingWs (l.dropWhile pyIsWs) with _ | ⟨a, t⟩
  · rw [hd] at hc
    cases hc
  · rw [hd, List.head?_cons, Option.some.injEq] at hc
    subst hc
    obtain ⟨t2, ht2⟩ := dropTrailingWs_prefixOf (l.dropWhile pyIsWs)
    rw [hd] at ht2
    apply head?_dropWhile_false pyIsWs l
    rw [← ht2]
    simp

/-- The last character of a stripped list is not whitespace. -/
theorem getLast?_pyStripChars_not_ws (l : List Char) (c : Char)
    (hc : (pyStripChars l).getLast? = some c) : pyIsWs c = false := by
  unfold pyStripChars dropTrailingWs at hc
  rw [List.getLast?_reverse] at hc
  exact head?_dropWhile_false pyIsWs _ c hc

/-- `dropWhile` is the identity when the head falsifies the predicate. -/
theorem dropWhile_eq_self_of_head (p : Char → Bool) (l : List Char)
    (h : ∀ c, l.head? = some c → p c = false) : l.dropWhile p = l := by
  cases l with
  | nil => rfl
  | cons a t =>
    rw [List.dropWhile_cons_of_neg]
    simp [h a rfl]

/-- Stripping is the identity on lists with non-whitespace ends. -/
theorem pyStripChars_eq_self (l : List Char)
    (hhead : ∀ c, l.head? = some c → pyIsWs c = false)
    (hlast : ∀ c, l.getLast? = some c → pyIsWs c = false) : pyStripChars l = l := by
  unfold pyStripChars dropTrailingWs
  rw [dropWhile_eq_self_of_head pyIsWs l hhead]
  rw [dropWhile_eq_self_of_head pyIsWs l.reverse
    (fun c hc => hlast c (by rwa [List.head?_reverse] at hc))]
  exact List.reverse_reverse l

/-- Collapsing is the identity on lists whose only whitespace is single
spaces with no two adjacent. -/
theorem collapseWs_eq_self (l : List Char)
    (hc : ∀ c ∈ l, pyIsWs c = true → c = ' ')
    (hch : List.Chain' (fun a b => ¬(pyIsWs a = true ∧ pyIsWs b = true)) l) :
    collapseWs l = l := by
  induction l with
  | nil => rfl
  | cons a cs ih =>
    cases cs with
    | nil =>
      rw [collapseWs]
      by_cases hw : pyIsWs a = true
      · rw [if_pos hw, hc a (List.mem_cons_self a []) hw]
      · rw [if_neg hw]
    | cons d rest =>
      rw [collapseWs]
      have hrel := (List.chain'_cons.mp hch).1
      rw [if_neg (by intro hb; exact hrel (by simpa using hb))]
      have htl : collapseWs (d :: rest) = d :: rest :=
        ih (fun c hm hw => hc c (List.mem_cons_of_mem a hm) hw) (List.chain'_cons.mp hch).2
      rw [htl]
      by_cases hw : pyIsWs a = true
      · rw [if_pos hw, hc a (List.mem_cons_self a _) hw]
      · rw [if_neg hw]

/-- Lowercase letters are not whitespace. -/
theorem isLower_not_ws (c : Char) (h : c.isLower = true) : pyIsWs c = false := by
  cases hw : pyIsWs c
  · rfl
  · exfalso
    simp [pyIsWs] at hw
    rcases hw with ((((rfl | rfl) | rfl) | rfl) | rfl) | rfl <;> exact absurd h (by decide)

/-- Character order in terms of scalar values. -/
theorem char_le_iff_toNat (a b : Char) : a ≤ b ↔ a.toNat ≤ b.toNat := by
  rw [Char.le_def]
  simp [UInt32.le_def, BitVec.le_def, Char.toNat, UInt32.toNat]

/-- Every character of a normalized text is a lowercase letter or a
space. -/
theorem preprocess_chars (T : String) (c : Char)
    (hc : c ∈ (preprocess_text_for_visualization T).data) :
    c.isLower = true ∨ c = ' ' := by
  by_cases hT : T = ""
  · rw [hT] at hc
    simp [preprocess_text_for_visualization] at hc
  · have hc2 : c ∈ pyStripChars (collapseWs (subNonAlphaToSpace (T.data.map Char.toLower))) := by
      have heq : preprocess_text_for_visualization T
          = String.mk (pyStripChars (collapseWs (subNonAlphaToSpace (T.data.map Char.toLower)))) := by
        rw [preprocess_text_for_visualization, if_neg hT]
      rw [heq] at hc
      exact hc
    have hc3 := mem_pyStripChars _ _ hc2
    rcases mem_collapseWs _ _ hc3 with h | ⟨hmem, hws⟩
    · exact Or.inr h
    · rcases mem_subNonAlphaToSpace T.data c hmem with h | h
      · exact Or.inl h
      · rw [h] at hws
        cases hws

/-- Normalized text never has two adjacent whitespace characters. -/
theorem preprocess_chain (T : String) :
    List.Chain' (fun a b => ¬(pyIsWs a = true ∧ pyIsWs b = true))
      (preprocess_text_for_visualization T).data := by
  by_cases hT : T = ""
  · rw [hT]
    simp [preprocess_text_for_visualization]
  · have heq : preprocess_text_for_visualization T
        = String.mk (pyStripChars (collapseWs (subNonAlphaToSpace (T.data.map Char.toLower)))) := by
      rw [preprocess_text_for_visualization, if_neg hT]
    rw [heq]
    show List.Chain' _ (pyStripChars (collapseWs (subNonAlphaToSpace (T.data.map Char.toLower))))
    unfold pyStripChars
    apply chain'_dropTrailingWs
    apply chain'_dropWhile
    exact chain'_collapseWs _

/-- The head of a normalized text is not whitespace. -/
theorem preprocess_head_not_ws (T : String) (c : Char)
    (hc : (preprocess_text_for_visualization T).data.head? = some c) : pyIsWs c = false := by
  by_cases hT : T = ""
  · rw [hT] at hc
    cases hc
  · have heq : preprocess_text_for_visualization T
        = String.mk (pyStripChars (collapseWs (subNonAlphaToSpace (T.data.map Char.toLower)))) := by
      rw [preprocess_text_for_visualization, if_neg hT]
    rw [heq] at hc
    exact head?_pyStripChars_not_ws _ c hc

/-- The last character of a normalized text is not whitespace. -/
theorem preprocess_getLast_not_ws (T : String) (c : Char)
    (hc : (preprocess_text_for_visualization T).data.getLast? = some c) : pyIsWs c = false := by
  by_cases hT : T = ""
  · rw [hT] at hc
    cases hc
  · have heq : preprocess_text_for_visualization T
        = String.mk (pyStripChars (collapseWs (subNonAlphaToSpace (T.data.map Char.toLower)))) := by
      rw [preprocess_text_for_visualization, if_neg hT]
    rw [heq] at hc
    exact getLast?_pyStripChars_not_ws _ c hc

/-- The normalizer is idempotent. -/
theorem preprocess_idem (T : String) :
    preprocess_text_for_visualization (preprocess_text_for_visualization T)
      = preprocess_text_for_visualization T := by
  by_cases h0 : preprocess_text_for_visualization T = ""
  · rw [h0]
    rfl
  · rw [preprocess_text_for_visualization, if_neg h0]
    show String.mk (pyStripChars (collapseWs (subNonAlphaToSpace
      ((preprocess_text_for_visualization T).data.map Char.toLower))))
      = preprocess_text_for_visualization T
    have hchars := preprocess_chars T
    have hmap : (preprocess_text_for_visualization T).data.map Char.toLower
        = (preprocess_text_for_visualization T).data := by
      rw [show (preprocess_text_for_visualization T).data.map Char.toLower
          = (preprocess_text_for_visualization T).data.map id from
        List.map_congr_left (fun c hc => by
          rcases hchars c hc with h | h
          · exact toLower_of_isLower c h
          · rw [h]
            decide)]
      exact List.map_id _
    rw [hmap]
    have hsub : subNonAlphaToSpace (preprocess_text_for_visualization T).data
        = (preprocess_text_for_visualization T).data := by
      unfold subNonAlphaToSpace
      rw [show (preprocess_text_for_visualization T).data.map
          (fun c => if (isAsciiLetter c || pyIsWs c) = true then c else ' ')
          = (preprocess_text_for_visualization T).data.map id from
        List.map_congr_left (fun c hc => by
          rcases hchars c hc with h | h
          · rw [if_pos (by simp [isAsciiLetter, h])]
            rfl
          · rw [h]
            decide)]
      exact List.map_id _
    rw [hsub]
    have hcol : collapseWs (preprocess_text_for_visualization T).data
        = (preprocess_text_for_visualization T).data := by
      apply collapseWs_eq_self
      · intro c hc hw
        rcases hchars c hc with h | h
        · rw [isLower_not_ws c h] at hw
          cases hw
        · exact h
      · exact preprocess_chain T
    rw [hcol]
    rw [pyStripChars_eq_self _ (preprocess_head_not_ws T) (preprocess_getLast_not_ws T)]

/-- Claim C8: the normalizer's output has no character outside
`[a-z0-9 \-.]` (indeed only lowercase letters and spaces survive), has no
two adjacent spaces, and normalizing is idempotent. -/
theorem preprocess_C8_properties : ∀ T : String,
    (∀ c ∈ (preprocess_text_for_visualization T).data,
      ('a' ≤ c ∧ c ≤ 'z') ∨ ('0' ≤ c ∧ c ≤ '9') ∨ c = ' ' ∨ c = '-' ∨ c = '.') ∧
    List.Chain' (fun a b => ¬(a = ' ' ∧ b = ' '))
      (preprocess_text_for_visualization T).data ∧
    preprocess_text_for_visualization (preprocess_text_for_visualization T)
      = preprocess_text_for_visualization T := by
  intro T
  refine ⟨?_, ?_, preprocess_idem T⟩
  · intro c hc
    rcases preprocess_chars T c hc with h | h
    · left
      rw [isLower_iff_toNat] at h
      constructor
      · rw [char_le_iff_toNat]
        exact h.1
      · rw [char_le_iff_toNat]
        exact h.2
    · right; right; left
      exact h
  · apply List.Chain'.imp ?_ (preprocess_chain T)
    intro a b hab
    intro hsp
    apply hab
    rw [hsp.1, hsp.2]
    exact ⟨by decide, by decide⟩

/-- Witness for C8 at the concrete input "Hi, all!": its first output
character is an allowed character and normalizing twice equals
normalizing once. -/
theorem preprocess_C8_witness :
    ((('a' ≤ 'h' ∧ 'h' ≤ 'z') ∨ ('0' ≤ 'h' ∧ 'h' ≤ '9') ∨ 'h' = ' ' ∨ 'h' = '-' ∨ 'h' = '.') ∧
      preprocess_text_for_visualization (preprocess_text_for_visualization "Hi, all!")
        = preprocess_text_for_visualization "Hi, all!") :=
  ⟨(preprocess_C8_properties "Hi, all!").1 'h' (by decide),
    (preprocess_C8_properties "Hi, all!").2.2⟩

/-- Claim C4 counterexample: the source normalizer erases digits, hyphens
and periods (its regex keeps only ASCII letters and whitespace), so it
disagrees at "a1.b-c" with the behavior the claim describes. -/
theorem preprocess_C4_counterexample :
    preprocess_text_for_visualization "a1.b-c" = "a b c" ∧
    normalize_claimC4 "a1.b-c" = "a1.b-c" ∧
    preprocess_text_for_visualization "a1.b-c" ≠ normalize_claimC4 "a1.b-c" :=
  ⟨by decide, by decide, by decide⟩

/-- Claim C4 amended: the normalizer lowercases and replaces every
character that is not a letter (so digits, hyphens and periods as well)
and not whitespace by a single space, collapses whitespace runs to one
space, trims, maps the empty string to the empty string, and raises no
exception (it is a total function). -/
theorem preprocess_C4_amended : ∀ T : String,
    preprocess_text_for_visualization T = normalize_amendedC4 T := by
  intro T
  by_cases hT : T = ""
  · rw [hT]
    rfl
  · rw [preprocess_text_for_visualization, normalize_amendedC4, if_neg hT, if_neg hT]
    show String.mk (pyStripChars (collapseWs (subNonAlphaToSpace (T.data.map Char.toLower))))
      = String.mk (pyStripChars (collapseWs (T.data.map (fun c =>
          let c2 := c.toLower
          if c2.isAlpha || pyIsWs c2 then c2 else ' '))))
    congr 3
    unfold subNonAlphaToSpace
    rw [List.map_map]
    rfl

/-- Words produced by the splitter are nonempty and whitespace-free. -/
theorem good_splitWsAux (l : List Char) (acc : List Char)
    (hacc : ∀ c ∈ acc, pyIsWs c = false) :
    ∀ w ∈ splitWsAux l acc, w ≠ [] ∧ ∀ c ∈ w, pyIsWs c = false := by
  induction l generalizing acc with
  | nil =>
    intro w hw
    rw [splitWsAux] at hw
    split at hw
    · cases hw
    · rename_i hne
      rw [List.mem_singleton] at hw
      subst hw
      refine ⟨by simpa using hne, ?_⟩
      intro c hc
      exact hacc c (List.mem_reverse.mp hc)
  | cons a cs ih =>
    intro w hw
    rw [splitWsAux] at hw
    by_cases hws : pyIsWs a = true
    · rw [if_pos hws] at hw
      by_cases hacc0 : acc = []
      · rw [if_pos hacc0] at hw
        exact ih [] (by intro c hc; cases hc) w hw
      · rw [if_neg hacc0] at hw
        rcases List.mem_cons.mp hw with h | h
        · subst h
          refine ⟨by simpa using hacc0, ?_⟩
          intro c hc
          exact hacc c (List.mem_reverse.mp hc)
        · exact ih [] (by intro c hc; cases hc) w h
    · rw [if_neg hws] at hw
      refine ih (a :: acc) ?_ w hw
      intro c hc
      rcases List.mem_cons.mp hc with h | h
      · subst h
        simpa using hws
      · exact hacc c h

/-- Scanning a whitespace-free block accumulates it onto the current
word. -/
theorem splitWsAux_append_word (w l acc : List Char)
    (hw : ∀ c ∈ w, pyIsWs c = false) :
    splitWsAux (w ++ l) acc = splitWsAux l (w.reverse ++ acc) := by
  induction w generalizing acc with
  | nil => simp
  | cons c w ih =>
    rw [List.cons_append, splitWsAux,
      if_neg (by simp [hw c (List.mem_cons_self c w)])]
    rw [ih _ (fun d hd => hw d (List.mem_cons_of_mem c hd))]
    congr 1
    simp

/-- Joining a single word is that word. -/
theorem joinWords_singleton (w : List Char) : joinWords [w] = w := by
  simp [joinWords, List.intercalate, List.intersperse]

/-- Joining with a nonempty tail emits the first word and a space. -/
theorem joinWords_cons (w b : List Char) (t : List (List Char)) :
    joinWords (w :: b :: t) = w ++ ' ' :: joinWords (b :: t) := by
  simp [joinWords, List.intercalate, List.intersperse]

/-- Word count of a joined word list with a whitespace-free suffix
attached: every word reappears, the suffix merging into the last word. -/
theorem length_pyWords_join (ws : List (List Char)) (d : List Char)
    (hws : ws ≠ [])
    (hgood : ∀ w ∈ ws, w ≠ [] ∧ ∀ c ∈ w, pyIsWs c = false)
    (hd : ∀ c ∈ d, pyIsWs c = false) :
    (pyWords (joinWords ws ++ d)).length = ws.length := by
  induction ws with
  | nil => exact absurd rfl hws
  | cons w ws ih =>
    cases ws with
    | nil =>
      rw [joinWords_singleton]
      obtain ⟨hne, hchars⟩ := hgood w (List.mem_cons_self w [])
      have hall : ∀ c ∈ w ++ d, pyIsWs c = false := by
        intro c hc
        rcases List.mem_append.mp hc with h | h
        · exact hchars c h
        · exact hd c h
      unfold pyWords
      have := splitWsAux_append_word (w ++ d) [] [] hall
      rw [List.append_nil] at this
      rw [this, splitWsAux, if_neg (by simp [hne])]
      rfl
    | cons b t =>
      rw [joinWords_cons]
      obtain ⟨hne, hchars⟩ := hgood w (List.mem_cons_self w _)
      unfold pyWords
      rw [show (w ++ ' ' :: joinWords (b :: t)) ++ d
          = w ++ (' ' :: (joinWords (b :: t) ++ d)) by simp]
      rw [splitWsAux_append_word w _ [] hchars]
      rw [List.append_nil, splitWsAux, if_pos (show pyIsWs ' ' = true by decide),
        if_neg (show ¬ w.reverse = [] by simp [hne])]
      rw [List.length_cons]
      have := ih (by simp) (fun x hx => hgood x (List.mem_cons_of_mem w hx))
      unfold pyWords at this
      rw [this]
      rfl

/-- Claim C10: on its success path `generate_cover_letter` returns at most
300 whitespace-delimited words, and whenever the cleaned model response
exceeds 300 words the result is exactly its first 250 words joined with
single spaces with an ellipsis appended. -/
theorem generate_cover_letter_post_C10 : ∀ response : List Char,
    (pyWords (generate_cover_letter_post response)).length ≤ 300 ∧
    (300 < (pyWords (stripCodeFence (pyStripChars response))).length →
      generate_cover_letter_post response
        = joinWords ((pyWords (stripCodeFence (pyStripChars response))).take 250)
            ++ "...".data) := by
  intro response
  constructor
  · unfold generate_cover_letter_post
    by_cases h : (pyWords (stripCodeFence (pyStripChars response))).length > 300
    · rw [if_pos h]
      have hgood := good_splitWsAux (stripCodeFence (pyStripChars response)) []
        (by intro c hc; cases hc)
      have hlen : ((pyWords (stripCodeFence (pyStripChars response))).take 250).length = 250 := by
        rw [List.length_take]
        omega
      have := length_pyWords_join
        ((pyWords (stripCodeFence (pyStripChars response))).take 250) "...".data
        (by
          intro hnil
          rw [hnil] at hlen
          cases hlen)
        (fun w hw => hgood w (List.take_subset 250 _ hw))
        (by intro c hc; fin_cases hc <;> decide)
      rw [this, hlen]
      omega
    · rw [if_neg h]
      omega
  · intro h
    unfold generate_cover_letter_post
    rw [if_pos h]

/-- A concrete 301-word model response for the C10 witness. -/
def longResponseC10 : List Char :=
  joinWords (List.replicate 301 ['w'])

set_option maxRecDepth 4000 in
/-- Witness for C10: a concrete 301-word response is truncated to its
first 250 words with an ellipsis appended. -/
theorem generate_cover_letter_post_C10_witness :
    300 < (pyWords (stripCodeFence (pyStripChars longResponseC10))).length ∧
    generate_cover_letter_post longResponseC10
      = joinWords ((pyWords (stripCodeFence (pyStripChars longResponseC10))).take 250)
          ++ "...".data := by
  have h : 300 < (pyWords (stripCodeFence (pyStripChars longResponseC10))).length := by
    decide
  exact ⟨h, (generate_cover_letter_post_C10 longResponseC10).2 h⟩
